import Mathlib

/- Verification development for the THB/USD exchange-rate monitor.

   The repository has two parts:
   a frontend monitor (class ExchangeRateMonitor) holding the analytics
   over a time-ordered rate series (calculateTrend, calculateProjection,
   updateInvestmentRecommendation), and an Express SMS alert service
   (register-alert, check-alerts, reset-alerts, alerts-status endpoints)
   keeping an in-memory map of alerts.

   Numbers are modelled as rationals; JavaScript falsiness of a number is
   equality with 0, falsiness of a string is equality with the empty
   string. -/

/-- One observation of the series: objects pushed by the monitor carry a
rate and a timestamp (the date string is redundant with the timestamp and
is not modelled). -/
structure RatePoint where
  rate : ℚ
  timestamp : ℤ
deriving DecidableEq

instance : Inhabited RatePoint := ⟨⟨0, 0⟩⟩

/-- calculateTrend of the monitor: percentage change from the first to
the last rate of the slice; slices with fewer than 2 points give 0. -/
def calculateTrend (data : List RatePoint) : ℚ :=
  if data.length < 2 then 0
  else
    ((data.getD (data.length - 1) default).rate - (data.getD 0 default).rate)
      / (data.getD 0 default).rate * 100

/-- The four accumulators of the regression loop in calculateProjection. -/
structure RegSums where
  sumX : ℚ
  sumY : ℚ
  sumXY : ℚ
  sumXX : ℚ

/-- The forEach loop of calculateProjection: accumulates the regression
sums over the rates, pairing each rate with its sequential index, the
first element getting index i. -/
def regSumsAux (i : ℚ) : List ℚ → RegSums
  | [] => ⟨0, 0, 0, 0⟩
  | r :: rs =>
      let t := regSumsAux (i + 1) rs
      ⟨i + t.sumX, r + t.sumY, i * r + t.sumXY, i * i + t.sumXX⟩

/-- Regression sums with indices starting at 0, as in the source loop. -/
def regSums (l : List ℚ) : RegSums := regSumsAux 0 l

/-- calculateProjection of the monitor: least-squares line over the last
14 points (all points when fewer), evaluated at index n + 7 where n is
the number of regression points, returned as percentage difference
against the last rate of the slice; fewer than 5 points gives 0. -/
def calculateProjection (data : List RatePoint) : ℚ :=
  if data.length < 5 then 0
  else
    let recentData := data.drop (data.length - 14)
    let n : ℚ := recentData.length
    let s := regSums (recentData.map (fun p => p.rate))
    let slope := (n * s.sumXY - s.sumX * s.sumY) / (n * s.sumXX - s.sumX * s.sumX)
    let intercept := (s.sumY - slope * s.sumX) / n
    let futureX : ℚ := n + 7
    let projectedRate := slope * futureX + intercept
    let currentRate := (data.getD (data.length - 1) default).rate
    (projectedRate - currentRate) / currentRate * 100

/-- Modelled from the spec: identical to calculateProjection except that
the fitted line is evaluated 7 indices beyond the last regression point,
that is at index (n - 1) + 7; kept only to compare the spec sentence
with the code, which uses n + 7. -/
def calculateProjectionSpec (data : List RatePoint) : ℚ :=
  if data.length < 5 then 0
  else
    let recentData := data.drop (data.length - 14)
    let n : ℚ := recentData.length
    let s := regSums (recentData.map (fun p => p.rate))
    let slope := (n * s.sumXY - s.sumX * s.sumY) / (n * s.sumXX - s.sumX * s.sumX)
    let intercept := (s.sumY - slope * s.sumX) / n
    let futureX : ℚ := (n - 1) + 7
    let projectedRate := slope * futureX + intercept
    let currentRate := (data.getD (data.length - 1) default).rate
    (projectedRate - currentRate) / currentRate * 100

/-- Error taxonomy used by the spec for the analytics module. -/
inductive AnalyticsError where
  | insufficientData
  | degenerateRegression
deriving DecidableEq

/-- Modelled from the spec: projection must fail with
InsufficientDataError on slices shorter than 5 points (the code instead
returns 0 there); on longer slices the value is the code value. -/
def projectionSpecE (data : List RatePoint) : Except AnalyticsError ℚ :=
  if data.length < 5 then Except.error AnalyticsError.insufficientData
  else Except.ok (calculateProjection data)

/-- Investment signal produced by updateInvestmentRecommendation. -/
inductive Signal where
  | strongBuy
  | moderateBuy
  | holdWait
  | neutral
deriving DecidableEq

/-- Risk level shown with each signal; high stands for the
high-if-converting wording of the HOLD branch. -/
inductive RiskLevel where
  | low
  | medium
  | high
deriving DecidableEq

/-- Decision core of updateInvestmentRecommendation of the monitor: the
if chain over (trend7d, volatility); the DOM rendering around it is
omitted. -/
def updateInvestmentRecommendation (trend7d volatility : ℚ) : Signal × RiskLevel :=
  if 2 < trend7d ∧ volatility < 2 then (Signal.strongBuy, RiskLevel.low)
  else if 1 / 2 < trend7d ∧ volatility < 3 then (Signal.moderateBuy, RiskLevel.medium)
  else if trend7d < -2 then (Signal.holdWait, RiskLevel.high)
  else (Signal.neutral, RiskLevel.medium)

/-- A stored alert of the SMS service: phoneNumber, threshold and the
triggered flag (createdAt and triggeredAt timestamps are not read by any
decision and are not modelled). -/
structure Alert where
  phoneNumber : String
  threshold : ℚ
  triggered : Bool
deriving DecidableEq

/-- Key of the activeAlerts map: the id string is phoneNumber, an
underscore, then the decimal threshold; since the threshold text never
contains an underscore the id determines the pair, so the key is
modelled as the pair itself. -/
abbrev AlertKey := String × ℚ

/-- The in-memory activeAlerts map, in insertion order. -/
abbrev AlertStore := List (AlertKey × Alert)

/-- One alert inside the check-alerts loop: when the alert is not yet
triggered and the rate reaches the threshold a send is attempted;
sendOk tells whether the Twilio call returns normally. On success the
alert becomes triggered and is recorded in triggeredAlerts; on a thrown
send error the catch only logs, so the alert is left unchanged. Returns
the updated alert, whether a send was attempted, and whether a
FireEvent was recorded. -/
def checkStep (sendOk : Bool) (a : Alert) (rate : ℚ) : Alert × Bool × Bool :=
  if a.triggered = false ∧ a.threshold ≤ rate then
    if sendOk then ({ a with triggered := true }, true, true)
    else (a, true, false)
  else (a, false, false)

/-- Successive check-alerts requests for one registered alert: a request
with rate 0 is rejected by the falsy guard before any evaluation,
otherwise the alert is evaluated by checkStep. The second component
counts recorded FireEvents over the whole sequence. -/
def evalSeq (sendOk : Bool) : Alert → List ℚ → Alert × ℕ
  | a, [] => (a, 0)
  | a, r :: rs =>
      let s := if r = 0 then (a, false, false) else checkStep sendOk a r
      let t := evalSeq sendOk s.1 rs
      (t.1, (if s.2.2 then 1 else 0) + t.2)

/-- Action of the reset-alerts endpoint on one stored alert. -/
def resetAlert (a : Alert) : Alert := { a with triggered := false }

/-- Map.set of the activeAlerts map: replace the value of an existing
key in place, otherwise append. -/
def mapSet : AlertStore → AlertKey → Alert → AlertStore
  | [], k, v => [(k, v)]
  | (k', v') :: rest, k, v =>
      if k' = k then (k, v) :: rest
      else (k', v') :: mapSet rest k v

/-- Map.delete of the activeAlerts map. -/
def mapDelete : AlertStore → AlertKey → AlertStore
  | [], _ => []
  | (k', v') :: rest, k =>
      if k' = k then rest
      else (k', v') :: mapDelete rest k

/-- register-alert endpoint: falsy phone or threshold is rejected with a
400 envelope; enabled true stores a fresh untriggered alert under the
phone-threshold key; enabled false deletes that key. The Bool is the
success field of the response envelope. -/
def registerAlert (store : AlertStore) (phone : String) (threshold : ℚ)
    (enabled : Bool) : Bool × AlertStore :=
  if phone = "" ∨ threshold = 0 then (false, store)
  else if enabled then
    (true, mapSet store (phone, threshold) ⟨phone, threshold, false⟩)
  else (true, mapDelete store (phone, threshold))

/-- The loop of the check-alerts endpoint over the whole store: returns
the updated store, the number of attempted sends and the number of
recorded FireEvents. -/
def runChecks (sendOk : Bool) (rate : ℚ) : AlertStore → AlertStore × ℕ × ℕ
  | [] => ([], 0, 0)
  | (k, a) :: rest =>
      let s := checkStep sendOk a rate
      let t := runChecks sendOk rate rest
      ((k, s.1) :: t.1,
        (if s.2.1 then 1 else 0) + t.2.1,
        (if s.2.2 then 1 else 0) + t.2.2)

/-- check-alerts endpoint: a missing or falsy currentRate is rejected
with success false before any alert is read; otherwise every stored
alert is evaluated. Returns the success field, the updated store, the
number of attempted sends and the number of recorded FireEvents. -/
def checkAlertsHandler (sendOk : Bool) (store : AlertStore)
    (currentRate : Option ℚ) : Bool × AlertStore × ℕ × ℕ :=
  match currentRate with
  | none => (false, store, 0, 0)
  | some r =>
      if r = 0 then (false, store, 0, 0)
      else
        let t := runChecks sendOk r store
        (true, t.1, t.2.1, t.2.2)

/-- The masking pattern of alerts-status: three digits, four digits, four
digits; true when the list starts with 11 digits. -/
def digits11 (l : List Char) : Bool :=
  decide (11 ≤ l.length) && (l.take 11).all Char.isDigit

/-- Replacement performed at a match position: keep 3 digits, write four
asterisks over the next 4, keep the next 4, keep the remainder. -/
def maskAt (l : List Char) : List Char :=
  l.take 3 ++ (['*', '*', '*', '*'] ++ ((l.drop 7).take 4 ++ l.drop 11))

/-- The replace call of alerts-status on the stored phone number: the
regular expression is not global, so only the leftmost run of 11 digits
is rewritten; a string without such a run is returned unchanged. -/
def maskPhone : List Char → List Char
  | [] => []
  | c :: rest =>
      if digits11 (c :: rest) then maskAt (c :: rest)
      else c :: maskPhone rest

/-- maskPhone on strings. -/
def maskPhoneS (s : String) : String := String.mk (maskPhone s.data)

/-- Whether some suffix of the list starts with 11 digits, that is
whether the masking pattern matches anywhere. -/
def hasRun11 : List Char → Bool
  | [] => false
  | c :: rest => digits11 (c :: rest) || hasRun11 rest

/-- alerts-status endpoint payload: per stored alert the masked phone
number, the threshold and the triggered flag. -/
def alertsStatus (store : AlertStore) : List (String × ℚ × Bool) :=
  store.map (fun e => (maskPhoneS e.2.phoneNumber, e.2.threshold, e.2.triggered))

/-- Keys of the store in order. -/
def keys (store : AlertStore) : List AlertKey := store.map Prod.fst

/-- Number of entries stored under one key. -/
def countKey (store : AlertStore) (k : AlertKey) : ℕ :=
  (store.filter (fun e => decide (e.1 = k))).length

/-- Number of entries whose alert belongs to one recipient. -/
def countRecipient (store : AlertStore) (p : String) : ℕ :=
  (store.filter (fun e => decide (e.2.phoneNumber = p))).length

/-- Synthetic linear rate list c, c + b, c + 2 b, and so on. -/
def linRates (c b : ℚ) : ℕ → List ℚ
  | 0 => []
  | k + 1 => c :: linRates (c + b) b k

/-- Synthetic perfectly linear series of rate points. -/
def linPoints (c b : ℚ) : ℕ → List RatePoint
  | 0 => []
  | k + 1 => ⟨c, 0⟩ :: linPoints (c + b) b k

/-- Sum of the indices 0 to n - 1. -/
def s1 (n : ℚ) : ℚ := n * (n - 1) / 2

/-- Sum of the squared indices 0 to n - 1. -/
def s2 (n : ℚ) : ℚ := n * (n - 1) * (2 * n - 1) / 6

/- Helper lemmas. -/

lemma getD_getLast_of_getLast? : ∀ (xs : List RatePoint) (x l : RatePoint),
    (x :: xs).getLast? = some l →
    (x :: xs).getD ((x :: xs).length - 1) default = l := by
  intro xs
  induction xs with
  | nil =>
      intro x l h
      simp [List.getLast?] at h
      simp [h]
  | cons y ys ih =>
      intro x l h
      have h2 : (y :: ys).getLast? = some l := by
        simpa [List.getLast?_cons_cons] using h
      have h3 := ih y l h2
      simpa [List.getD_cons_succ, List.length_cons] using h3

/-- C2: for every slice with at least 2 points, calculateTrend returns
exactly the percentage change from the first to the last element of the
slice. -/
theorem c2_trend_exact (data : List RatePoint) (f l : RatePoint)
    (h2 : 2 ≤ data.length) (hf : data.head? = some f)
    (hl : data.getLast? = some l) :
    calculateTrend data = (l.rate - f.rate) / f.rate * 100 := by
  rcases data with _ | ⟨x, rest⟩
  · simp at hf
  · have hx : x = f := by simpa using hf
    have hlen : ¬ ((x :: rest).length < 2) := by omega
    have hgl := getD_getLast_of_getLast? rest x l hl
    unfold calculateTrend
    rw [if_neg hlen, hgl]
    have hg0 : (x :: rest).getD 0 default = f := by rw [← hx]; rfl
    rw [hg0]

/-- Witness for c2_trend_exact on the two-point slice with rates 1 and 2. -/
theorem c2_trend_exact_witness :
    calculateTrend [⟨1, 0⟩, ⟨2, 0⟩] = 100 := by
  have h := c2_trend_exact [⟨1, 0⟩, ⟨2, 0⟩] ⟨1, 0⟩ ⟨2, 0⟩ (by decide) rfl rfl
  norm_num at h
  exact h

/-- C5: the recommendation is a deterministic first-match decision table
over (trend7d, volatility); being a pure function of its two inputs,
identical inputs give identical output. -/
theorem c5_decision_table (t v : ℚ) :
    (2 < t ∧ v < 2 →
      updateInvestmentRecommendation t v = (Signal.strongBuy, RiskLevel.low)) ∧
    (¬ (2 < t ∧ v < 2) → 1 / 2 < t ∧ v < 3 →
      updateInvestmentRecommendation t v = (Signal.moderateBuy, RiskLevel.medium)) ∧
    (¬ (2 < t ∧ v < 2) → ¬ (1 / 2 < t ∧ v < 3) → t < -2 →
      updateInvestmentRecommendation t v = (Signal.holdWait, RiskLevel.high)) ∧
    (¬ (2 < t ∧ v < 2) → ¬ (1 / 2 < t ∧ v < 3) → ¬ (t < -2) →
      updateInvestmentRecommendation t v = (Signal.neutral, RiskLevel.medium)) := by
  unfold updateInvestmentRecommendation
  refine ⟨fun h1 => ?_, fun h1 h2 => ?_, fun h1 h2 h3 => ?_, fun h1 h2 h3 => ?_⟩
  · rw [if_pos h1]
  · rw [if_neg h1, if_pos h2]
  · rw [if_neg h1, if_neg h2, if_pos h3]
  · rw [if_neg h1, if_neg h2, if_neg h3]

/-- Witness for c5_decision_table at trend 3 and volatility 1. -/
theorem c5_decision_table_witness :
    updateInvestmentRecommendation 3 1 = (Signal.strongBuy, RiskLevel.low) :=
  (c5_decision_table 3 1).1 (by constructor <;> norm_num)

/-- C7 counterexample: on a 4-point slice the code returns the computed
value 0 where the spec demands a failure with InsufficientDataError, so
the projection does return a value there. -/
theorem c7_counterexample :
    calculateProjection (linPoints 1 1 4) = 0 ∧
    projectionSpecE (linPoints 1 1 4)
      = Except.error AnalyticsError.insufficientData :=
  ⟨rfl, rfl⟩

/-- C7 amended: on every slice with fewer than 5 points the projection
returns the sentinel value 0 instead of failing; the code has no error
channel. -/
theorem c7_short_slice_returns_zero (data : List RatePoint)
    (h : data.length < 5) : calculateProjection data = 0 := by
  unfold calculateProjection
  rw [if_pos h]

/-- Witness for c7_short_slice_returns_zero on a 4-point slice. -/
theorem c7_short_slice_returns_zero_witness :
    calculateProjection (linPoints 2 3 4) = 0 :=
  c7_short_slice_returns_zero (linPoints 2 3 4) (by decide)

/-- C10: the check-alerts endpoint treats a supplied rate of 0 exactly
like a missing rate: the response has success false, the store is
unchanged, no send is attempted and no FireEvent is recorded. -/
theorem c10_zero_rate_rejected (sendOk : Bool) (store : AlertStore) :
    checkAlertsHandler sendOk store (some 0) = (false, store, 0, 0) ∧
    checkAlertsHandler sendOk store none = (false, store, 0, 0) ∧
    checkAlertsHandler sendOk store (some 0)
      = checkAlertsHandler sendOk store none := by
  refine ⟨by simp [checkAlertsHandler], rfl, by simp [checkAlertsHandler]⟩

lemma evalSeq_triggered (sendOk : Bool) : ∀ (rs : List ℚ) (a : Alert),
    a.triggered = true → evalSeq sendOk a rs = (a, 0) := by
  intro rs
  induction rs with
  | nil => intro a h; rfl
  | cons r t ih =>
      intro a h
      by_cases hr : r = 0
      · simp [evalSeq, hr, ih a h]
      · have hcs : checkStep sendOk a r = (a, false, false) := by
          simp [checkStep, h]
        simp [evalSeq, hr, hcs, ih a h]

lemma evalSeq_below (sendOk : Bool) : ∀ (rs : List ℚ) (a : Alert),
    (∀ x ∈ rs, x < a.threshold) → evalSeq sendOk a rs = (a, 0) := by
  intro rs
  induction rs with
  | nil => intro a _; rfl
  | cons r t ih =>
      intro a h
      have hr : r < a.threshold := h r (List.mem_cons_self r t)
      have ht : ∀ x ∈ t, x < a.threshold := fun x hx => h x (List.mem_cons_of_mem r hx)
      by_cases hz : r = 0
      · simp [evalSeq, hz, ih a ht]
      · have hcs : checkStep sendOk a r = (a, false, false) := by
          simp [checkStep, not_le.mpr hr]
        simp [evalSeq, hz, hcs, ih a ht]

lemma evalSeq_append (sendOk : Bool) : ∀ (xs ys : List ℚ) (a : Alert),
    evalSeq sendOk a (xs ++ ys)
      = ((evalSeq sendOk (evalSeq sendOk a xs).1 ys).1,
          (evalSeq sendOk a xs).2 + (evalSeq sendOk (evalSeq sendOk a xs).1 ys).2) := by
  intro xs
  induction xs with
  | nil => intro ys a; simp [evalSeq]
  | cons x t ih =>
      intro ys a
      simp only [List.cons_append, evalSeq, List.append_eq, ih]
      exact Prod.ext rfl (Nat.add_assoc _ _ _).symm

lemma evalSeq_cross (p : String) (T r : ℚ) (pre post : List ℚ)
    (hT : 0 < T) (hpre : ∀ x ∈ pre, x < T) (hr : T ≤ r) :
    evalSeq true ⟨p, T, false⟩ (pre ++ r :: post) = (⟨p, T, true⟩, 1) := by
  have h1 : evalSeq true ⟨p, T, false⟩ pre = (⟨p, T, false⟩, 0) :=
    evalSeq_below true pre ⟨p, T, false⟩ hpre
  have hr0 : ¬ r = 0 := by
    intro h
    rw [h] at hr
    linarith
  have hstep : checkStep true ⟨p, T, false⟩ r = (⟨p, T, true⟩, true, true) := by
    simp [checkStep, hr]
  have h2 : evalSeq true ⟨p, T, false⟩ (r :: post) = (⟨p, T, true⟩, 1) := by
    simp [evalSeq, hr0, hstep, evalSeq_triggered true post ⟨p, T, true⟩ rfl]
  rw [evalSeq_append, h1, h2]
  rfl

/-- C1 amended: starting from an armed alert, a crossing fires exactly
one FireEvent and every later evaluation fires none, whatever the later
rates do — in particular an evaluation below the threshold does not
re-arm the episode; only the explicit reset endpoint re-arms, after
which a new crossing fires a second FireEvent. -/
theorem c1_fire_once_until_reset (p : String) (T r : ℚ) (pre post : List ℚ)
    (hT : 0 < T) (hpre : ∀ x ∈ pre, x < T) (hr : T ≤ r) :
    (evalSeq true ⟨p, T, false⟩ (pre ++ r :: post)).2 = 1 ∧
    (evalSeq true ⟨p, T, false⟩ (pre ++ r :: post)).1.triggered = true ∧
    ∀ pre2 r2 post2, (∀ x ∈ pre2, x < T) → T ≤ r2 →
      (evalSeq true (resetAlert (evalSeq true ⟨p, T, false⟩ (pre ++ r :: post)).1)
          (pre2 ++ r2 :: post2)).2 = 1 := by
  have h := evalSeq_cross p T r pre post hT hpre hr
  refine ⟨by rw [h], by rw [h], ?_⟩
  intro pre2 r2 post2 hpre2 hr2
  rw [h]
  have hres : resetAlert ⟨p, T, true⟩ = ⟨p, T, false⟩ := rfl
  show (evalSeq true (resetAlert ⟨p, T, true⟩) (pre2 ++ r2 :: post2)).2 = 1
  rw [hres, evalSeq_cross p T r2 pre2 post2 hT hpre2 hr2]

/-- Witness for c1_fire_once_until_reset: threshold 2, rates 1 then the
crossing 2 then 3, 1, 5. -/
theorem c1_fire_once_until_reset_witness :
    (evalSeq true ⟨("p"), 2, false⟩ ([1] ++ 2 :: [3, 1, 5])).2 = 1 :=
  (c1_fire_once_until_reset ("p") 2 2 [1] [3, 1, 5] (by decide)
    (by decide) (by decide)).1

/-- C1 counterexample: with threshold 2 and rate sequence 1, 2, 1, 2 the
claim demands a second FireEvent at the second crossing after the rate
dropped below the threshold, so 2 events in total; the service records
exactly 1 because dropping below the threshold never clears the
triggered flag. -/
theorem c1_counterexample :
    (evalSeq true ⟨("p"), 2, false⟩ [1, 2, 1, 2]).2 = 1 ∧
    (evalSeq true ⟨("p"), 2, false⟩ [1, 2, 1, 2]).2 ≠ 2 := by
  decide

/-- C6 amended: when the Twilio send throws, the catch only logs: the
alert is returned unchanged, so the episode has not transitioned to
FIRED, no FireEvent is recorded, the endpoint still answers success
true, and the next evaluation at or above the threshold attempts the
send again. -/
theorem c6_failed_dispatch_not_fired (a : Alert) (r : ℚ)
    (h1 : a.triggered = false) (h2 : a.threshold ≤ r) (h3 : r ≠ 0) :
    checkStep false a r = (a, true, false) ∧
    (checkStep false ((checkStep false a r).1) r).2.1 = true ∧
    (checkAlertsHandler false [((a.phoneNumber, a.threshold), a)] (some r)).1
      = true := by
  have hcs : checkStep false a r = (a, true, false) := by
    simp [checkStep, h1, h2]
  refine ⟨hcs, ?_, ?_⟩
  · rw [hcs]
    show (checkStep false a r).2.1 = true
    rw [hcs]
  · simp [checkAlertsHandler, h3]

/-- Witness for c6_failed_dispatch_not_fired at threshold 2, rate 3. -/
theorem c6_failed_dispatch_not_fired_witness :
    checkStep false ⟨("p"), 2, false⟩ 3 = (⟨("p"), 2, false⟩, true, false) :=
  (c6_failed_dispatch_not_fired ⟨("p"), 2, false⟩ 3 rfl (by decide) (by decide)).1

/-- C6 counterexample: after a failed dispatch at rate 3 against
threshold 2 the claim says the episode is FIRED and no further send
happens; the code leaves triggered false and attempts the send again at
the next evaluation. -/
theorem c6_counterexample :
    (checkStep false ⟨("p"), 2, false⟩ 3).1.triggered = false ∧
    (checkStep false ((checkStep false ⟨("p"), 2, false⟩ 3).1) 3).2.1 = true := by
  decide


lemma keys_cons (e : AlertKey × Alert) (rest : AlertStore) :
    keys (e :: rest) = e.1 :: keys rest := rfl

lemma keys_mapSet_mem : ∀ (s : AlertStore) (k : AlertKey) (v : Alert)
    (x : AlertKey), x ∈ keys (mapSet s k v) → x = k ∨ x ∈ keys s := by
  intro s
  induction s with
  | nil =>
      intro k v x hx
      simp only [mapSet, keys, List.map_cons, List.map_nil,
        List.mem_singleton] at hx
      exact Or.inl hx
  | cons e rest ih =>
      intro k v x hx
      obtain ⟨k', v'⟩ := e
      by_cases hk : k' = k
      · rw [show mapSet ((k', v') :: rest) k v = (k, v) :: rest from by
          simp [mapSet, hk]] at hx
        rw [keys_cons, List.mem_cons] at hx
        rcases hx with h | h
        · exact Or.inl h
        · exact Or.inr (by rw [keys_cons, List.mem_cons]; exact Or.inr h)
      · rw [show mapSet ((k', v') :: rest) k v = (k', v') :: mapSet rest k v from by
          simp [mapSet, hk]] at hx
        rw [keys_cons, List.mem_cons] at hx
        rcases hx with h | h
        · exact Or.inr (by rw [keys_cons, List.mem_cons]; exact Or.inl h)
        · rcases ih k v x h with h2 | h2
          · exact Or.inl h2
          · exact Or.inr (by rw [keys_cons, List.mem_cons]; exact Or.inr h2)

lemma keys_mapSet_nodup : ∀ (s : AlertStore) (k : AlertKey) (v : Alert),
    (keys s).Nodup → (keys (mapSet s k v)).Nodup := by
  intro s
  induction s with
  | nil => intro k v _; simp [mapSet, keys]
  | cons e rest ih =>
      intro k v h
      obtain ⟨k', v'⟩ := e
      rw [keys_cons, List.nodup_cons] at h
      obtain ⟨hnot, ht⟩ := h
      by_cases hk : k' = k
      · rw [show mapSet ((k', v') :: rest) k v = (k, v) :: rest from by
          simp [mapSet, hk]]
        rw [keys_cons, List.nodup_cons]
        exact ⟨hk ▸ hnot, ht⟩
      · rw [show mapSet ((k', v') :: rest) k v = (k', v') :: mapSet rest k v from by
          simp [mapSet, hk]]
        rw [keys_cons, List.nodup_cons]
        refine ⟨?_, ih k v ht⟩
        intro hmem
        rcases keys_mapSet_mem rest k v k' hmem with h2 | h2
        · exact hk h2
        · exact hnot h2

lemma keys_mapDelete_mem : ∀ (s : AlertStore) (k x : AlertKey),
    x ∈ keys (mapDelete s k) → x ∈ keys s := by
  intro s
  induction s with
  | nil => intro k x hx; simp [mapDelete, keys] at hx
  | cons e rest ih =>
      intro k x hx
      obtain ⟨k', v'⟩ := e
      by_cases hk : k' = k
      · rw [show mapDelete ((k', v') :: rest) k = rest from by
          simp [mapDelete, hk]] at hx
        rw [keys_cons, List.mem_cons]
        exact Or.inr hx
      · rw [show mapDelete ((k', v') :: rest) k = (k', v') :: mapDelete rest k from by
          simp [mapDelete, hk]] at hx
        rw [keys_cons, List.mem_cons] at hx ⊢
        rcases hx with h | h
        · exact Or.inl h
        · exact Or.inr (ih k x h)

lemma keys_mapDelete_nodup : ∀ (s : AlertStore) (k : AlertKey),
    (keys s).Nodup → (keys (mapDelete s k)).Nodup := by
  intro s
  induction s with
  | nil => intro k _; simp [mapDelete, keys]
  | cons e rest ih =>
      intro k h
      obtain ⟨k', v'⟩ := e
      rw [keys_cons, List.nodup_cons] at h
      obtain ⟨hnot, ht⟩ := h
      by_cases hk : k' = k
      · rw [show mapDelete ((k', v') :: rest) k = rest from by
          simp [mapDelete, hk]]
        exact ht
      · rw [show mapDelete ((k', v') :: rest) k = (k', v') :: mapDelete rest k from by
          simp [mapDelete, hk]]
        rw [keys_cons, List.nodup_cons]
        exact ⟨fun hmem => hnot (keys_mapDelete_mem rest k k' hmem), ih k ht⟩

lemma countKey_eq_zero : ∀ (s : AlertStore) (k : AlertKey),
    k ∉ keys s → countKey s k = 0 := by
  intro s
  induction s with
  | nil => intro k _; rfl
  | cons e rest ih =>
      intro k h
      obtain ⟨k', v'⟩ := e
      rw [keys_cons, List.mem_cons, not_or] at h
      obtain ⟨h1, h2⟩ := h
      have hne : ¬ (k' = k) := fun hh => h1 hh.symm
      simp only [countKey, List.filter_cons]
      rw [if_neg (by simpa using hne)]
      exact ih k h2

lemma countKey_le_one : ∀ (s : AlertStore) (k : AlertKey),
    (keys s).Nodup → countKey s k ≤ 1 := by
  intro s
  induction s with
  | nil => intro k _; simp [countKey]
  | cons e rest ih =>
      intro k h
      obtain ⟨k', v'⟩ := e
      rw [keys_cons, List.nodup_cons] at h
      obtain ⟨hnot, ht⟩ := h
      by_cases hk : k' = k
      · subst hk
        simp only [countKey, List.filter_cons]
        rw [if_pos (by simp)]
        have hz : countKey rest k' = 0 := countKey_eq_zero rest k' hnot
        simp only [countKey] at hz
        simp [hz]
      · simp only [countKey, List.filter_cons]
        rw [if_neg (by simpa using hk)]
        exact ih k ht

/-- C8 amended: the store is keyed by the recipient-threshold pair, not
by the recipient alone: every reachable store has pairwise distinct keys
and at most one entry per key, so registering an existing
recipient-threshold pair overwrites that entry; a registration for the
same recipient with a different threshold instead adds a second entry. -/
theorem c8_key_uniqueness (store : AlertStore) (p : String) (t : ℚ)
    (en : Bool) (key : AlertKey) (h : (keys store).Nodup) :
    (keys (registerAlert store p t en).2).Nodup ∧
    countKey (registerAlert store p t en).2 key ≤ 1 := by
  have hnodup : (keys (registerAlert store p t en).2).Nodup := by
    unfold registerAlert
    split_ifs with h1 h2
    · exact h
    · exact keys_mapSet_nodup store (p, t) ⟨p, t, false⟩ h
    · exact keys_mapDelete_nodup store (p, t) h
  exact ⟨hnodup, countKey_le_one _ key hnodup⟩

/-- Witness for c8_key_uniqueness: registering into the empty store. -/
theorem c8_key_uniqueness_witness :
    (keys (registerAlert [] ("p") 1 true).2).Nodup ∧
    countKey (registerAlert [] ("p") 1 true).2 (("p"), 1) ≤ 1 :=
  c8_key_uniqueness [] ("p") 1 true (("p"), 1) (by simp [keys])

/-- C8 counterexample: registering the same recipient with thresholds 1
and then 2 leaves two concurrent active rules for that recipient, so the
second registration did not update the single rule of that recipient and
a reachable store holds more than one rule per recipient. -/
theorem c8_counterexample :
    countRecipient ((registerAlert ((registerAlert [] ("p") 1 true).2)
      ("p") 2 true).2) ("p") = 2 ∧
    ¬ countRecipient ((registerAlert ((registerAlert [] ("p") 1 true).2)
      ("p") 2 true).2) ("p") ≤ 1 := by
  decide

lemma countP_digits_take (l : List Char) (m : ℕ) (hm : m ≤ 11)
    (hlen : 11 ≤ l.length) (hdig : (l.take 11).all Char.isDigit = true) :
    List.countP (fun c => c.isDigit) (l.take m) = m := by
  have hsub : l.take m = (l.take 11).take m := by
    rw [List.take_take, min_eq_left hm]
  have hall : ∀ a ∈ l.take m, a.isDigit = true := by
    intro a ha
    rw [hsub] at ha
    exact List.all_eq_true.1 hdig a (List.take_subset m (l.take 11) ha)
  calc List.countP (fun c => c.isDigit) (l.take m)
      = (l.take m).length := List.countP_eq_length.2 hall
    _ = m := by rw [List.length_take]; omega

lemma maskAt_ne (l : List Char) (hlen : 11 ≤ l.length)
    (hdig : (l.take 11).all Char.isDigit = true) : maskAt l ≠ l := by
  intro heq
  have hcount := congrArg (List.countP (fun c => c.isDigit)) heq
  have hmid : (l.drop 7).take 4 = (l.take 11).drop 7 := by
    rw [List.drop_take]
  have hmid4 : List.countP (fun c => c.isDigit) ((l.drop 7).take 4) = 4 := by
    have hall : ∀ a ∈ (l.drop 7).take 4, a.isDigit = true := by
      intro a ha
      rw [hmid] at ha
      exact List.all_eq_true.1 hdig a (List.drop_subset 7 (l.take 11) ha)
    calc List.countP (fun c => c.isDigit) ((l.drop 7).take 4)
        = ((l.drop 7).take 4).length := List.countP_eq_length.2 hall
      _ = 4 := by
          rw [List.length_take, List.length_drop]
          omega
  have hstars :
      List.countP (fun c => c.isDigit) (['*', '*', '*', '*'] : List Char) = 0 := by
    decide
  have hleft : List.countP (fun c => c.isDigit) (maskAt l)
      = 7 + List.countP (fun c => c.isDigit) (l.drop 11) := by
    simp only [maskAt, List.countP_append]
    rw [countP_digits_take l 3 (by omega) hlen hdig, hmid4, hstars]
    omega
  have hright : List.countP (fun c => c.isDigit) l
      = 11 + List.countP (fun c => c.isDigit) (l.drop 11) := by
    conv_lhs => rw [← List.take_append_drop 11 l]
    rw [List.countP_append, countP_digits_take l 11 (by omega) hlen hdig]
  rw [hleft, hright] at hcount
  omega

/-- C9 amended: the alerts-status masking rewrites the stored phone
number only when it contains a run of 11 consecutive digits (the first
such run has its middle four digits replaced by asterisks); any stored
number without such a run is returned in full, unmasked. -/
theorem c9_mask_only_long_digit_runs (l : List Char) :
    (hasRun11 l = false → maskPhone l = l) ∧
    (hasRun11 l = true → maskPhone l ≠ l) := by
  induction l with
  | nil =>
      exact ⟨fun _ => rfl, fun h => by simp [hasRun11] at h⟩
  | cons c rest ih =>
      by_cases hd : digits11 (c :: rest) = true
      · constructor
        · intro h0
          rw [show hasRun11 (c :: rest) = (digits11 (c :: rest) || hasRun11 rest)
            from rfl, hd] at h0
          simp at h0
        · intro _
          rw [show maskPhone (c :: rest) = maskAt (c :: rest) from by
            simp [maskPhone, hd]]
          rw [digits11, Bool.and_eq_true] at hd
          exact maskAt_ne _ (of_decide_eq_true hd.1) hd.2
      · have hd' : digits11 (c :: rest) = false := by
          simpa using hd
        have hmp : maskPhone (c :: rest) = c :: maskPhone rest := by
          simp [maskPhone, hd']
        have hrun : hasRun11 (c :: rest) = hasRun11 rest := by
          simp [hasRun11, hd']
        constructor
        · intro h0
          rw [hmp, ih.1 (by rw [← hrun]; exact h0)]
        · intro h1 heq
          rw [hmp] at heq
          have htail : maskPhone rest = rest := by
            exact (List.cons.injEq c (maskPhone rest) c rest).mp heq |>.2
          exact ih.2 (by rw [← hrun]; exact h1) htail

/-- Witness for c9_mask_only_long_digit_runs: a 13-digit number is
changed by the mask, a 5-digit number is returned unchanged. -/
theorem c9_witness :
    maskPhone (String.data ("5551234567890")) ≠ String.data ("5551234567890") ∧
    maskPhone (String.data ("12345")) = String.data ("12345") :=
  ⟨(c9_mask_only_long_digit_runs _).2 (by decide),
    (c9_mask_only_long_digit_runs _).1 (by decide)⟩

/-- C9 counterexample: a registered alert whose phone number is the
5-digit string 12345 is reported by alerts-status with exactly the full
stored phone number, unmasked. -/
theorem c9_counterexample :
    (alertsStatus (registerAlert [] ("12345") 1 true).2).map Prod.fst
      = [("12345")] ∧
    ((registerAlert [] ("12345") 1 true).2).map (fun e => e.2.phoneNumber)
      = [("12345")] := by
  constructor <;> rfl

lemma linRates_length (b : ℚ) : ∀ (k : ℕ) (c : ℚ), (linRates c b k).length = k := by
  intro k
  induction k with
  | zero => intro c; rfl
  | succ k ih => intro c; simp [linRates, ih]

lemma linPoints_length (b : ℚ) : ∀ (k : ℕ) (c : ℚ), (linPoints c b k).length = k := by
  intro k
  induction k with
  | zero => intro c; rfl
  | succ k ih => intro c; simp [linPoints, ih]

lemma linPoints_map_rate (b : ℚ) : ∀ (k : ℕ) (c : ℚ),
    (linPoints c b k).map (fun p => p.rate) = linRates c b k := by
  intro k
  induction k with
  | zero => intro c; rfl
  | succ k ih => intro c; simp [linPoints, linRates, ih]

lemma linPoints_drop (b : ℚ) : ∀ (n k : ℕ) (c : ℚ),
    (linPoints c b k).drop n = linPoints (c + b * n) b (k - n) := by
  intro n
  induction n with
  | zero => intro k c; simp
  | succ n ih =>
      intro k c
      cases k with
      | zero => simp [linPoints]
      | succ k =>
          show (linPoints (c + b) b k).drop n = _
          rw [ih k (c + b)]
          have : c + b + b * (n : ℚ) = c + b * ((n : ℚ) + 1) := by ring
          rw [this]
          push_cast
          rfl

lemma linPoints_getD (b : ℚ) : ∀ (k j : ℕ) (c : ℚ), j < k →
    ((linPoints c b k).getD j default).rate = c + b * j := by
  intro k
  induction k with
  | zero => intro j c h; omega
  | succ k ih =>
      intro j c h
      cases j with
      | zero => simp [linPoints]
      | succ j =>
          show ((linPoints (c + b) b k).getD j default).rate = _
          rw [ih j (c + b) (by omega)]
          push_cast
          ring

lemma regSumsAux_sumX : ∀ (l : List ℚ) (i : ℚ),
    (regSumsAux i l).sumX = l.length * i + s1 l.length := by
  intro l
  induction l with
  | nil => intro i; simp [regSumsAux, s1]
  | cons r t ih =>
      intro i
      show i + (regSumsAux (i + 1) t).sumX = _
      rw [ih (i + 1)]
      simp only [s1, List.length_cons]
      push_cast
      ring

lemma regSumsAux_sumXX : ∀ (l : List ℚ) (i : ℚ),
    (regSumsAux i l).sumXX = l.length * i ^ 2 + 2 * i * s1 l.length + s2 l.length := by
  intro l
  induction l with
  | nil => intro i; simp [regSumsAux, s1, s2]
  | cons r t ih =>
      intro i
      show i * i + (regSumsAux (i + 1) t).sumXX = _
      rw [ih (i + 1)]
      simp only [s1, s2, List.length_cons]
      push_cast
      ring

lemma regSumsAux_sumY_lin (b : ℚ) : ∀ (k : ℕ) (c i : ℚ),
    (regSumsAux i (linRates c b k)).sumY = k * c + b * s1 k := by
  intro k
  induction k with
  | zero => intro c i; simp [linRates, regSumsAux, s1]
  | succ k ih =>
      intro c i
      show c + (regSumsAux (i + 1) (linRates (c + b) b k)).sumY = _
      rw [ih (c + b) (i + 1)]
      simp only [s1]
      push_cast
      ring

lemma regSumsAux_sumXY_lin (b : ℚ) : ∀ (k : ℕ) (c i : ℚ),
    (regSumsAux i (linRates c b k)).sumXY
      = c * (k * i + s1 k) + b * (i * s1 k + s2 k) := by
  intro k
  induction k with
  | zero => intro c i; simp [linRates, regSumsAux, s1, s2]
  | succ k ih =>
      intro c i
      show i * c + (regSumsAux (i + 1) (linRates (c + b) b k)).sumXY = _
      rw [ih (c + b) (i + 1)]
      simp only [s1, s2]
      push_cast
      ring

lemma regression_denom_closed (l : List ℚ) :
    (l.length : ℚ) * (regSums l).sumXX - (regSums l).sumX * (regSums l).sumX
      = (l.length : ℚ) ^ 2 * ((l.length : ℚ) - 1) * ((l.length : ℚ) + 1) / 12 := by
  simp only [regSums]
  rw [regSumsAux_sumX l 0, regSumsAux_sumXX l 0]
  simp only [s1, s2]
  ring

/-- The regression denominator of calculateProjection is strictly
positive for every list of at least 2 points, since the x values are the
sequential indices 0 to n - 1: it equals n squared times (n - 1) times
(n + 1) over 12. Hence the degenerate case of C4 is unreachable and the
code never divides by zero, even though it has no explicit guard. -/
theorem regression_denom_pos (l : List ℚ) (h : 2 ≤ l.length) :
    0 < (l.length : ℚ) * (regSums l).sumXX - (regSums l).sumX * (regSums l).sumX := by
  rw [regression_denom_closed]
  have hk : (2 : ℚ) ≤ (l.length : ℚ) := by exact_mod_cast h
  have h1 : (0 : ℚ) < (l.length : ℚ) := by linarith
  have h2 : (0 : ℚ) < (l.length : ℚ) - 1 := by linarith
  have h3 : (0 : ℚ) < (l.length : ℚ) + 1 := by linarith
  have h4 : (0 : ℚ) < (l.length : ℚ) ^ 2 * ((l.length : ℚ) - 1) * ((l.length : ℚ) + 1) :=
    mul_pos (mul_pos (pow_pos h1 2) h2) h3
  exact div_pos h4 (by norm_num)

lemma reg_on_lin (b : ℚ) (k : ℕ) (c : ℚ) (hk : 2 ≤ k) :
    ((k : ℚ) * (regSums (linRates c b k)).sumXY
        - (regSums (linRates c b k)).sumX * (regSums (linRates c b k)).sumY)
      / ((k : ℚ) * (regSums (linRates c b k)).sumXX
        - (regSums (linRates c b k)).sumX * (regSums (linRates c b k)).sumX) = b
    ∧ ((regSums (linRates c b k)).sumY - b * (regSums (linRates c b k)).sumX)
      / (k : ℚ) = c := by
  have hlen : (linRates c b k).length = k := linRates_length b k c
  have hkQ : (2 : ℚ) ≤ (k : ℚ) := by exact_mod_cast hk
  have hk0 : (k : ℚ) ≠ 0 := by
    have : (0 : ℚ) < (k : ℚ) := by linarith
    exact ne_of_gt this
  have hD := regression_denom_pos (linRates c b k) (by rw [hlen]; exact hk)
  rw [hlen] at hD
  have hDc := regression_denom_closed (linRates c b k)
  rw [hlen] at hDc
  constructor
  · have hnum : (k : ℚ) * (regSums (linRates c b k)).sumXY
        - (regSums (linRates c b k)).sumX * (regSums (linRates c b k)).sumY
        = b * ((k : ℚ) * (regSums (linRates c b k)).sumXX
          - (regSums (linRates c b k)).sumX * (regSums (linRates c b k)).sumX) := by
      simp only [regSums]
      rw [regSumsAux_sumX _ 0, regSumsAux_sumXX _ 0, regSumsAux_sumY_lin b k c 0,
        regSumsAux_sumXY_lin b k c 0, hlen]
      simp only [s1, s2]
      ring
    rw [hnum, mul_div_assoc, div_self (ne_of_gt hD), mul_one]
  · have hnum2 : (regSums (linRates c b k)).sumY
        - b * (regSums (linRates c b k)).sumX = c * (k : ℚ) := by
      simp only [regSums]
      rw [regSumsAux_sumX _ 0, regSumsAux_sumY_lin b k c 0, hlen]
      simp only [s1]
      ring
    rw [hnum2, mul_div_assoc, div_self hk0, mul_one]

lemma projection_lin_value (a b : ℚ) (m : ℕ) (hm : 5 ≤ m) :
    calculateProjection (linPoints a b m)
      = 8 * b / (a + b * ((m : ℚ) - 1)) * 100 := by
  obtain ⟨d, k, hd, hk, hdk, hk5⟩ :
      ∃ d k, m - 14 = d ∧ m - d = k ∧ d + k = m ∧ 5 ≤ k :=
    ⟨m - 14, m - (m - 14), rfl, rfl, by omega, by omega⟩
  have hlen : (linPoints a b m).length = m := linPoints_length b m a
  simp only [calculateProjection, hlen]
  rw [if_neg (show ¬ m < 5 by omega)]
  rw [hd, linPoints_drop b d m a, hk]
  rw [linPoints_length b k (a + b * (d : ℚ))]
  rw [linPoints_map_rate b k (a + b * (d : ℚ))]
  rw [(reg_on_lin b k (a + b * (d : ℚ)) (by omega)).1]
  rw [(reg_on_lin b k (a + b * (d : ℚ)) (by omega)).2]
  rw [linPoints_getD b m (m - 1) a (by omega)]
  rw [Nat.cast_sub (show 1 ≤ m by omega), Nat.cast_one]
  have hmQ : (m : ℚ) = (d : ℚ) + (k : ℚ) := by exact_mod_cast hdk.symm
  rw [hmQ]
  ring

lemma projectionSpec_lin_value (a b : ℚ) (m : ℕ) (hm : 5 ≤ m) :
    calculateProjectionSpec (linPoints a b m)
      = 7 * b / (a + b * ((m : ℚ) - 1)) * 100 := by
  obtain ⟨d, k, hd, hk, hdk, hk5⟩ :
      ∃ d k, m - 14 = d ∧ m - d = k ∧ d + k = m ∧ 5 ≤ k :=
    ⟨m - 14, m - (m - 14), rfl, rfl, by omega, by omega⟩
  have hlen : (linPoints a b m).length = m := linPoints_length b m a
  simp only [calculateProjectionSpec, hlen]
  rw [if_neg (show ¬ m < 5 by omega)]
  rw [hd, linPoints_drop b d m a, hk]
  rw [linPoints_length b k (a + b * (d : ℚ))]
  rw [linPoints_map_rate b k (a + b * (d : ℚ))]
  rw [(reg_on_lin b k (a + b * (d : ℚ)) (by omega)).1]
  rw [(reg_on_lin b k (a + b * (d : ℚ)) (by omega)).2]
  rw [linPoints_getD b m (m - 1) a (by omega)]
  rw [Nat.cast_sub (show 1 ≤ m by omega), Nat.cast_one]
  have hmQ : (m : ℚ) = (d : ℚ) + (k : ℚ) := by exact_mod_cast hdk.symm
  rw [hmQ]
  ring

/-- C3 amended: on a perfectly linear series rate = a + b i of m
points, at least 5, the projection fits the least-squares line over the
most recent 14 points (all when fewer), recovers the slope b exactly,
evaluates the line at index n + 7 — which is 8, not 7, indices beyond
the last regression point n - 1 — and returns the percentage difference
against the last rate: 8 b divided by the last rate, times 100. -/
theorem c3_projection_linear (a b : ℚ) (m : ℕ) (hm : 5 ≤ m) :
    calculateProjection (linPoints a b m)
      = 8 * b / (a + b * ((m : ℚ) - 1)) * 100 :=
  projection_lin_value a b m hm

/-- Witness for c3_projection_linear on the 5-point series 1 to 5. -/
theorem c3_witness : calculateProjection (linPoints 1 1 5) = 160 := by
  have h := c3_projection_linear 1 1 5 (by norm_num)
  norm_num at h
  exact h

/-- C3 counterexample: on the 5-point linear series with slope 1 the
code returns 160 while evaluating the fitted line 7 indices beyond the
last point, as the claim states, would return 140. -/
theorem c3_counterexample :
    calculateProjection (linPoints 1 1 5) = 160 ∧
    calculateProjectionSpec (linPoints 1 1 5) = 140 := by
  constructor
  · have h := projection_lin_value 1 1 5 (by norm_num)
    norm_num at h
    exact h
  · have h := projectionSpec_lin_value 1 1 5 (by norm_num)
    norm_num at h
    exact h
